import Mathlib

/-!
Shallow embedding of the core logic of the `scikit-bold` (skbold) repository:

* `skbold/transformers/roi_indexer.py` — `RoiIndexer.transform`, which indexes a
  whole-brain feature matrix with a region-of-interest mask;
* `skbold/utils/mvp_results.py` — the `MvpResults` base class and its two
  specializations `MvpResultsRegression` / `MvpResultsClassification`, which
  accumulate per-fold metrics and voxel-level feature scores.

Numeric arrays are modelled as lists of rationals; numpy's floating-point
arithmetic is modelled exactly over `ℚ` (the external square root used by
`write` is abstracted as a function parameter `sq`).  Python exceptions are
modelled with `Except PyErr`.
-/

namespace Skbold

/-- Boolean-mask indexing `xs[mask]` of numpy: keep the entries of `xs` at the
positions where `mask` is `true`, in order. -/
def boolIndex {α : Type} : List α → List Bool → List α
  | x :: xs, b :: bs => if b then x :: boolIndex xs bs else boolIndex xs bs
  | _, _ => []

/-- Number of `true` entries of a boolean mask (the cardinality of the mask). -/
def countTrue (bs : List Bool) : ℕ := (bs.filter id).length

/-! ### RoiIndexer (roi_indexer.py) -/

/-- Line 79: `roi_idx = nib.load(self.mask).get_data() > self.mask_threshold`.
The loaded, flattened mask volume is `roiData`; the comparison is strict. -/
def roiIdxOf (roiData : List ℚ) (threshold : ℚ) : List Bool :=
  roiData.map (fun v => decide (threshold < v))

/-- Line 80: `overlap = roi_idx.astype(int).ravel() + self.orig_mask.astype(int)`. -/
def overlapOf (roiIdx origMask : List Bool) : List ℕ :=
  List.zipWith (fun r m => (if r then 1 else 0) + (if m then 1 else 0)) roiIdx origMask

/-- Lines 79–83 of `roi_indexer.py`: `RoiIndexer.transform`.
`origMask` is the Pattern Container's flattened original boolean mask
(`self.orig_mask`), `roiData` the flattened region-mask volume, and `X` the
feature matrix (one inner list per sample row).
`X_new = X[:, (overlap == 2)[self.orig_mask]]`. -/
def RoiIndexer.transform (origMask : List Bool) (roiData : List ℚ) (threshold : ℚ)
    (X : List (List ℚ)) : List (List ℚ) :=
  let roiIdx := roiIdxOf roiData threshold
  let overlap := overlapOf roiIdx origMask
  let sel := boolIndex (overlap.map (fun o => decide (o = 2))) origMask
  X.map (fun row => boolIndex row sel)

/-- Selection as the spec words it (spec §8.1 / C1): take the logical AND of the
original mask and the thresholded region mask, restrict it to the original
mask's true positions, and select those feature columns of `X`. -/
def specIntersectSelect (origMask : List Bool) (roiData : List ℚ) (threshold : ℚ)
    (X : List (List ℚ)) : List (List ℚ) :=
  let andMask := List.zipWith (fun m r => m && decide (threshold < r)) origMask roiData
  let sel := boolIndex andMask origMask
  X.map (fun row => boolIndex row sel)

/-! ### Numeric helpers: numpy / sklearn primitives over ℚ -/

/-- Arithmetic mean of a list (`ℚ`'s total division gives 0 for the empty list). -/
def listMean (xs : List ℚ) : ℚ := xs.sum / xs.length

/-- sklearn `mean_squared_error`. -/
def mean_squared_error (y_true y_pred : List ℚ) : ℚ :=
  listMean (List.zipWith (fun a b => (a - b) ^ 2) y_true y_pred)

/-- sklearn `r2_score` (a zero total sum of squares follows `ℚ`'s total division). -/
def r2_score (y_true y_pred : List ℚ) : ℚ :=
  1 - (List.zipWith (fun a b => (a - b) ^ 2) y_true y_pred).sum
      / (y_true.map (fun a => (a - listMean y_true) ^ 2)).sum

def insertSorted (x : ℚ) : List ℚ → List ℚ
  | [] => [x]
  | y :: ys => if x ≤ y then x :: y :: ys else y :: insertSorted x ys

/-- np.unique: the sorted list of the distinct values of `xs`. -/
def npUnique (xs : List ℚ) : List ℚ := xs.dedup.foldr insertSorted []

/-- sklearn `accuracy_score`: fraction of positions where the labels agree. -/
def accuracy_score (y_true y_pred : List ℚ) : ℚ :=
  (List.zipWith (fun a b => if a = b then (1 : ℚ) else 0) y_true y_pred).sum
    / y_true.length

/-- sklearn `precision_score(average='macro')`; a class never predicted scores 0. -/
def macroPrecision (y_true y_pred : List ℚ) : ℚ :=
  listMean ((npUnique (y_true ++ y_pred)).map (fun c =>
    let tp := ((List.zip y_true y_pred).filter
      (fun p => decide (p.1 = c) && decide (p.2 = c))).length
    let pp := (y_pred.filter (fun v => decide (v = c))).length
    if pp = 0 then 0 else (tp : ℚ) / pp))

/-- sklearn `recall_score(average='macro')`; a class never occurring truly scores 0. -/
def macroRecall (y_true y_pred : List ℚ) : ℚ :=
  listMean ((npUnique (y_true ++ y_pred)).map (fun c =>
    let tp := ((List.zip y_true y_pred).filter
      (fun p => decide (p.1 = c) && decide (p.2 = c))).length
    let ap := (y_true.filter (fun v => decide (v = c))).length
    if ap = 0 then 0 else (tp : ℚ) / ap))

/-- sklearn `confusion_matrix`: labels are the sorted distinct values of
`y_true ++ y_pred`; entry (a, b) counts trials with true label `a` predicted
as label `b`. -/
def confusion_matrix (y_true y_pred : List ℚ) : List (List ℕ) :=
  let labels := npUnique (y_true ++ y_pred)
  labels.map (fun a => labels.map (fun b =>
    ((List.zip y_true y_pred).filter
      (fun p => decide (p.1 = a) && decide (p.2 = b))).length))

/-- Column `j` of a 2-D array given as a list of rows. -/
def column (rows : List (List ℚ)) (j : ℕ) : List ℚ := rows.map (fun row => row.getD j 0)

/-- np.mean(·, axis=0): per-column mean (the column count is taken from the
first row, as numpy takes it from the uniform shape). -/
def meanAxis0 (rows : List (List ℚ)) : List ℚ :=
  (List.range (rows.headD []).length).map (fun j => listMean (column rows j))

/-- np.std(·, axis=0): per-column population standard deviation, with the
square root abstracted as the function parameter `sq`. -/
def stdAxis0 (sq : ℚ → ℚ) (rows : List (List ℚ)) : List ℚ :=
  (List.range (rows.headD []).length).map (fun j =>
    sq (((column rows j).map (fun v => (v - listMean (column rows j)) ^ 2)).sum
      / rows.length))

/-! ### MvpResults.write (mvp_results.py lines 70–100) -/

/-- Lines 82–86: the reduction of the per-fold voxel-value array performed by
`MvpResults.write`; `to_tstat` selects the t-statistic conversion
`values.mean(axis=0) / (values.std(axis=0) / np.sqrt(n))` with
`n = values.shape[0]`. -/
def writeReduce (to_tstat : Bool) (sq : ℚ → ℚ) (voxel_values : List (List ℚ)) :
    List ℚ :=
  if to_tstat then
    List.zipWith (fun m s => m / (s / sq voxel_values.length))
      (meanAxis0 voxel_values) (stdAxis0 sq voxel_values)
  else meanAxis0 voxel_values

/-- Direct per-voxel computation from the stored per-fold array, as the spec
states it (C7): `mean(values) / (std(values) / sqrt(n_folds))` where mean and
std range over the per-fold values stored at that voxel. -/
def tStatAt (sq : ℚ → ℚ) (voxel_values : List (List ℚ)) (j : ℕ) : ℚ :=
  let c := column voxel_values j
  listMean c
    / (sq ((c.map (fun v => (v - listMean c) ^ 2)).sum / c.length)
        / sq voxel_values.length)

/-- Line 96: `n_nonzero = (subset > 0).sum()` — the count `write` actually
reports for a feature set's reconstructed values. -/
def writeNNonzero (subset : List ℚ) : ℕ :=
  (subset.filter (fun v => decide (0 < v))).length

/-- Count of the entries different from zero — what the printed message
("Number of non-zero voxels") and the spec say `write` reports. -/
def countNonzero (subset : List ℚ) : ℕ :=
  (subset.filter (fun v => decide (v ≠ 0))).length

/-- Lines 88–98: the per-feature-set subset `values[self.featureset_id == i]`
whose reported count `write` computes. -/
def writeSubsetNNonzero (values : List ℚ) (featureset_id : List ℕ) (i : ℕ) : ℕ :=
  writeNNonzero (boolIndex values (featureset_id.map (fun f => decide (f = i))))

/-! ### MvpResults: state, pipeline handling and fold updates -/

/-- Python exceptions raised by the aggregators.  `linAlgError` is numpy's
`numpy.linalg.LinAlgError` (kept as its own constructor for clarity; in
Python it subclasses `ValueError`). -/
inductive PyErr : Type
  | indexError : PyErr
  | attributeError : String → PyErr
  | valueError : String → PyErr
  | linAlgError : String → PyErr
  deriving DecidableEq, Repr

def PyErr.isAttributeError : PyErr → Bool
  | .attributeError _ => true
  | _ => false

/-- One step of a fitted sklearn `Pipeline`, abstracted to the four attributes
`_update_voxel_values` probes: `coef_`, `scores_`, `estimators_` (an ensemble's
fitted sub-estimators, each reduced to its `coef_` matrix) and `get_support()`
(a boolean feature mask).  `none` models a missing attribute. -/
structure PipeStep : Type where
  coef_ : Option (List ℚ)
  scores_ : Option (List ℚ)
  estimators_ : Option (List (List (List ℚ)))
  get_support : Option (List Bool)
  deriving DecidableEq, Repr

/-- The `values` argument of `update`: raw voxel weights or a fitted pipeline.
(A `GridSearchCV` object is replaced by its `best_estimator_` on lines 104–105
before this dispatch; we model the object after that unwrapping, and
`np.squeeze` on an already 1-D weight vector is the identity.) -/
inductive FeatVals : Type
  | raw : List ℚ → FeatVals
  | pipeline : List PipeStep → FeatVals
  deriving DecidableEq, Repr

/-- Line 110: `match = 'coef_' if self.fs in ['coef', 'forward'] else 'scores_'`. -/
def matchAttr (fs : String) : String :=
  if fs = "coef" ∨ fs = "forward" then "coef_" else "scores_"

/-- Lines 111–112: the values of the matched attribute collected over the
pipeline's steps (in step order, skipping steps lacking the attribute). -/
def matchedVals (fs : String) (steps : List PipeStep) : List (List ℚ) :=
  steps.filterMap (fun s => if fs = "coef" ∨ fs = "forward" then s.coef_ else s.scores_)

/-- Lines 115–116: the steps exposing an `estimators_` attribute. -/
def ensembleSteps (steps : List PipeStep) : List (List (List (List ℚ))) :=
  steps.filterMap (fun s => s.estimators_)

/-- Lines 129–138: when the extracted values do not span all of X's features
and no explicit index was passed, recover the index from the single step
exposing `get_support` (the error message on line 137 reuses the attribute
name and reads "in pipeline!"). -/
def resolveSupport (fs : String) (xCols : ℕ) (steps : List PipeStep)
    (idx : Option (List Bool)) (v : List ℚ) :
    Except PyErr (List ℚ × Option (List Bool)) :=
  if v.length ≠ xCols ∧ idx = none then
    match steps.filterMap (fun s => s.get_support) with
    | [s] => .ok (v, some s)
    | _ => .error (.valueError
        ("Found more than one " ++ matchAttr fs ++ " attribute in pipeline!"))
  else .ok (v, idx)

/-- Lines 108–140: extraction of the desired feature scores from a pipeline:
exactly one step with the matched attribute, or — when none has it — exactly
one ensemble step whose sub-estimator coefficients are concatenated and
averaged; anything else raises a `ValueError`. -/
def extractFromPipeline (fs : String) (xCols : ℕ) (steps : List PipeStep)
    (idx : Option (List Bool)) : Except PyErr (List ℚ × Option (List Bool)) :=
  match matchedVals fs steps with
  | [v] => resolveSupport fs xCols steps idx v
  | [] =>
    match ensembleSteps steps with
    | [ens] => resolveSupport fs xCols steps idx (meanAxis0 ens.flatten)
    | _ => .error (.valueError
        ("Found no " ++ matchAttr fs ++ " attribute anywhere in the pipeline!"))
  | _ => .error (.valueError
      ("Found more than one " ++ matchAttr fs ++ " attribute in the pipeline!"))

def resolveVals (fs : String) (xCols : ℕ) (values : FeatVals)
    (idx : Option (List Bool)) : Except PyErr (List ℚ × Option (List Bool)) :=
  match values with
  | .raw v => .ok (v, idx)
  | .pipeline steps => extractFromPipeline fs xCols steps idx

/-- numpy masked assignment `row[mask] = vals`: the entries at the mask's true
positions are replaced by the entries of `vals` in order. -/
def maskAssign : List ℚ → List Bool → List ℚ → List ℚ
  | [], _, _ => []
  | r :: rs, [], _ => r :: rs
  | r :: rs, b :: bs, vals =>
    if b then vals.headD 0 :: maskAssign rs bs vals.tail
    else r :: maskAssign rs bs vals

/-- Row assignment `self.voxel_values[self.iter, idx] = v` (lines 146 / 163):
with a boolean index it is a masked assignment; with `idx = None` numpy
broadcasts `v` over the whole row. -/
def rowAssign (row : List ℚ) (idx : Option (List Bool)) (v : List ℚ) : List ℚ :=
  match idx with
  | none => v
  | some m => maskAssign row m v

/-- Column selection `self.X[:, mask]` by a boolean feature mask (line 154). -/
def selectColsMask (X : List (List ℚ)) (mask : List Bool) : List (List ℚ) :=
  X.map (fun row => boolIndex row mask)

/-- `X.shape[1]` of a row-major matrix. -/
def Xcols (X : List (List ℚ)) : ℕ := (X.headD []).length

/-- `np.cov(X.T)` for `X` with rows as samples: the (ddof = 1) covariance
matrix of the columns of `X`. -/
def covCols (X : List (List ℚ)) : List (List ℚ) :=
  (List.range (Xcols X)).map (fun a => (List.range (Xcols X)).map (fun b =>
    (X.map (fun row => (row.getD a 0 - listMean (column X a))
      * (row.getD b 0 - listMean (column X b)))).sum / ((X.length : ℚ) - 1)))

/-- Matrix–vector product over row-major matrices. -/
def matVec (M : List (List ℚ)) (w : List ℚ) : List ℚ :=
  M.map (fun row => (List.zipWith (fun a b => a * b) row w).sum)

/-- Line 155: `s = W.T.dot(X.T)` for a 1-D weight vector `W` of shape (k,)
and selected data `X` of shape (n, k'): numpy's dot contracts `W` against the
rows of `X.T`, so it requires `k = k'` (for the uniform rows of an ndarray)
and raises `ValueError` otherwise; on success `s[t] = Σ_j W[j]·X[t][j]`. -/
def dotWXT (W : List ℚ) (Xsel : List (List ℚ)) : Except PyErr (List ℚ) :=
  if ∀ row ∈ Xsel, row.length = W.length then
    .ok (Xsel.map (fun row => (List.zipWith (fun a b => a * b) W row).sum))
  else .error (.valueError "shapes not aligned")

/-- The attributes of the `MvpResults` base class that `_update_voxel_values`
reads and writes.  `n_class` is `some _` only for the classification variant:
`MvpResultsClassification.__init__` (line 311) is the only place defining it,
so on `MvpResultsRegression` the attribute lookup fails. -/
structure MvpCore : Type where
  n_iter : ℕ
  fs : String
  X : List (List ℚ)
  y : List ℚ
  n_class : Option ℕ
  n_vox : List ℚ
  voxel_values : List (List ℚ)
  iter : ℕ
  deriving DecidableEq, Repr

/-- Line 145: `any(fnmatch(self.fs, typ) for typ in ['coef*', 'ufs'])`. -/
def fnmatchCoefUfs (fs : String) : Bool :=
  List.isPrefixOf "coef".data fs.data || fs = "ufs"

/-- Lines 102–163: `MvpResults._update_voxel_values` after the metric updates:
extract the values (and possibly the index) from a pipeline, record the voxel
count, then store the values — directly for `coef*`/`ufs` scoring, through the
Haufe forward model for `forward` scoring.  The forward branch follows the
source's order: `W = values`, `X = self.X[:, idx]` and `s = W.T.dot(X.T)`
(lines 153–155) are computed before `self.n_class` is read on line 157, so
numpy shape errors preempt the attribute lookup.  For a (k,)-shaped `W`:
with fewer than 3 classes `A = np.cov(X.T).dot(W)` is stored; with 3 or more,
`np.cov(s)` of the 1-D `s` is a 0-d array, on which `np.linalg.pinv` raises
`LinAlgError` ("0-dimensional array given. ..."), so nothing is stored.  With
`idx = None`, `self.X[:, None]` inserts a unit axis (shape (n, 1, k0)): the
dot contracts `W` against that unit axis (requiring `W` of length 1, else
"shapes not aligned"), and `np.cov` of the 3-D transpose then raises
"m has more than 2 dimensions" in either class branch. -/
def updateVoxelValues (c : MvpCore) (values : FeatVals) (idx : Option (List Bool)) :
    Except PyErr MvpCore :=
  match resolveVals c.fs (Xcols c.X) values idx with
  | .error e => .error e
  | .ok (v, idx') =>
    let c1 : MvpCore := { c with n_vox := c.n_vox.set c.iter (v.length : ℚ) }
    if fnmatchCoefUfs c.fs then
      .ok { c1 with voxel_values :=
        c1.voxel_values.set c.iter (rowAssign (c1.voxel_values.getD c.iter []) idx' v) }
    else if c.fs = "forward" then
      match idx' with
      | none =>
        if v.length = 1 then
          match c.n_class with
          | none => .error (.attributeError "n_class")
          | some _ => .error (.valueError "m has more than 2 dimensions")
        else .error (.valueError "shapes not aligned")
      | some mask =>
        match dotWXT v (selectColsMask c.X mask) with
        | .error e => .error e
        | .ok _s =>
          match c.n_class with
          | none => .error (.attributeError "n_class")
          | some nc =>
            if nc < 3 then
              .ok { c1 with
                voxel_values := c1.voxel_values.set c.iter
                  (rowAssign (c1.voxel_values.getD c.iter []) idx'
                    (matVec (covCols (selectColsMask c.X mask)) v)) }
            else .error (.linAlgError
              "0-dimensional array given. Array must be at least two-dimensional")
    else .ok c1

/-! ### MvpResultsRegression (mvp_results.py lines 202–275) -/

/-- The regression MSE accumulator: initialized as an array
(`np.zeros(n_iter)`, line 235), but line 259 of `update` assigns a scalar
over the whole attribute. -/
inductive MseVal : Type
  | arr : List ℚ → MseVal
  | scalar : ℚ → MseVal
  deriving DecidableEq, Repr

structure RegState : Type where
  core : MvpCore
  R2 : List ℚ
  mse : MseVal
  deriving DecidableEq, Repr

/-- The arguments of one `update` call. -/
structure UpdateInput : Type where
  test_idx : List ℕ
  y_pred : List ℚ
  values : Option FeatVals
  idx : Option (List Bool)
  deriving DecidableEq, Repr

def defaultUpdateInput : UpdateInput := ⟨[], [], none, none⟩

/-- Label lookup `y_true = self.y[test_idx]`. -/
def yTrueOf (y : List ℚ) (u : UpdateInput) : List ℚ :=
  u.test_idx.map (fun t => y.getD t 0)

/-- `MvpResultsRegression.__init__` (lines 226–237). -/
def MvpResultsRegression.init (n_iter : ℕ) (X : List (List ℚ)) (y : List ℚ)
    (fs : String) : RegState :=
  { core := { n_iter := n_iter, fs := fs, X := X, y := y, n_class := none,
              n_vox := List.replicate n_iter 0,
              voxel_values := List.replicate n_iter (List.replicate (Xcols X) 0),
              iter := 0 },
    R2 := List.replicate n_iter 0,
    mse := .arr (List.replicate n_iter 0) }

/-- Lines 239–267: `MvpResultsRegression.update`.  Out-of-range numpy indexed
assignment and out-of-range fancy label indexing raise `IndexError`; line 258
indexes `self.R2[i]` per fold while line 259 assigns `self.mse` wholesale. -/
def MvpResultsRegression.update (st : RegState) (u : UpdateInput) :
    Except PyErr RegState :=
  let i := st.core.iter
  if i < st.core.n_iter then
    if u.test_idx.all (fun t => decide (t < st.core.y.length)) then
      let y_true := yTrueOf st.core.y u
      let R2' := st.R2.set i (r2_score y_true u.y_pred)
      let mse' := MseVal.scalar (mean_squared_error y_true u.y_pred)
      match u.values with
      | none => .ok { st with
          R2 := R2',
          mse := mse',
          core := { st.core with iter := i + 1 } }
      | some v =>
        match updateVoxelValues st.core v u.idx with
        | .error e => .error e
        | .ok c' => .ok { st with
            R2 := R2',
            mse := mse',
            core := { c' with iter := i + 1 } }
    else .error .indexError
  else .error .indexError

/-- The columns of the `pandas.DataFrame` built by
`MvpResultsRegression.compute_scores` (lines 269–275); pandas broadcasts a
scalar `MSE` value to the length of the other columns. -/
structure RegDf : Type where
  R2 : List ℚ
  MSE : List ℚ
  n_voxels : List ℚ
  deriving DecidableEq, Repr

def MvpResultsRegression.compute_scores (st : RegState) : RegDf :=
  { R2 := st.R2,
    MSE := (match st.mse with
      | .arr v => v
      | .scalar q => List.replicate st.core.n_iter q),
    n_voxels := st.core.n_vox }

/-- A sequence of `update` calls, aborting at the first exception. -/
def runRegUpdates : RegState → List UpdateInput → Except PyErr RegState
  | st, [] => .ok st
  | st, u :: us =>
    match MvpResultsRegression.update st u with
    | .error e => .error e
    | .ok st' => runRegUpdates st' us

/-! ### MvpResultsClassification (mvp_results.py lines 278–362) -/

structure ClfState : Type where
  core : MvpCore
  accuracy : List ℚ
  precision : List ℚ
  recall' : List ℚ
  confmat : List (List (List ℕ))
  deriving DecidableEq, Repr

/-- `MvpResultsClassification.__init__` (lines 300–314): `n_class` is the
number of distinct labels of the full label vector, and the per-fold confusion
matrices start as an `n_iter × n_class × n_class` zero array. -/
def MvpResultsClassification.init (n_iter : ℕ) (X : List (List ℚ)) (y : List ℚ)
    (fs : String) : ClfState :=
  { core := { n_iter := n_iter, fs := fs, X := X, y := y,
              n_class := some (npUnique y).length,
              n_vox := List.replicate n_iter 0,
              voxel_values := List.replicate n_iter (List.replicate (Xcols X) 0),
              iter := 0 },
    accuracy := List.replicate n_iter 0,
    precision := List.replicate n_iter 0,
    recall' := List.replicate n_iter 0,
    confmat := List.replicate n_iter
      (List.replicate (npUnique y).length (List.replicate (npUnique y).length 0)) }

/-- Line 339: `self.confmat[i, :, :] = confusion_matrix(y_true, y_pred)`.
The slot is `n_class × n_class`; numpy broadcasts a 1×1 value over the slot
and rejects any other mismatched shape. -/
def assignConfmat (slot : ℕ) (cm : List (List ℕ)) : Except PyErr (List (List ℕ)) :=
  if cm.length = slot then .ok cm
  else if cm.length = 1 then
    .ok (List.replicate slot (List.replicate slot ((cm.headD []).headD 0)))
  else .error (.valueError "could not broadcast input array")

/-- Lines 316–347: `MvpResultsClassification.update`. -/
def MvpResultsClassification.update (st : ClfState) (u : UpdateInput) :
    Except PyErr ClfState :=
  let i := st.core.iter
  if i < st.core.n_iter then
    if u.test_idx.all (fun t => decide (t < st.core.y.length)) then
      let y_true := yTrueOf st.core.y u
      match assignConfmat (st.core.n_class.getD 0) (confusion_matrix y_true u.y_pred) with
      | .error e => .error e
      | .ok cm =>
        let st1 : ClfState := { st with
          accuracy := st.accuracy.set i (accuracy_score y_true u.y_pred),
          precision := st.precision.set i (macroPrecision y_true u.y_pred),
          recall' := st.recall'.set i (macroRecall y_true u.y_pred),
          confmat := st.confmat.set i cm }
        match u.values with
        | none => .ok { st1 with core := { st1.core with iter := i + 1 } }
        | some v =>
          match updateVoxelValues st1.core v u.idx with
          | .error e => .error e
          | .ok c' => .ok { st1 with core := { c' with iter := i + 1 } }
    else .error .indexError
  else .error .indexError

/-- Element-wise sum of two matrices (numpy `+` on equal shapes). -/
def matAdd (A B : List (List ℕ)) : List (List ℕ) :=
  List.zipWith (List.zipWith (fun a b => a + b)) A B

/-- Line 361: `self.confmat.sum(axis=0)` — the aggregate confusion matrix
printed by `MvpResultsClassification.compute_scores`. -/
def aggregateConfmat (st : ClfState) : List (List ℕ) :=
  st.confmat.foldl matAdd
    (List.replicate (st.core.n_class.getD 0)
      (List.replicate (st.core.n_class.getD 0) 0))

/-- A sequence of `update` calls, aborting at the first exception. -/
def runClfUpdates : ClfState → List UpdateInput → Except PyErr ClfState
  | st, [] => .ok st
  | st, u :: us =>
    match MvpResultsClassification.update st u with
    | .error e => .error e
    | .ok st' => runClfUpdates st' us

/-- Entry (a, b) of a matrix given as rows. -/
def cmEntry (M : List (List ℕ)) (a b : ℕ) : ℕ := (M.getD a []).getD b 0

/-- Well-formedness of a `c × c` matrix. -/
def sizedMat (c : ℕ) (M : List (List ℕ)) : Prop :=
  M.length = c ∧ ∀ r ∈ M, r.length = c

/-! ### Concrete inputs used by the witnesses below -/

/-- A small regression aggregator: 2 folds, a 2×2 feature matrix, no scoring. -/
def regDemo0 : RegState :=
  MvpResultsRegression.init 2 [[1, 2], [3, 4]] [1, 3] ""

/-- Two plain folds for the regression demo. -/
def regDemoUs : List UpdateInput :=
  [⟨[0], [2], none, none⟩, ⟨[1], [1], none, none⟩]

def regDemoFinal : RegState :=
  (runRegUpdates regDemo0 regDemoUs).toOption.getD regDemo0

/-- A regression aggregator set up for forward-model scoring. -/
def regFwd0 : RegState :=
  MvpResultsRegression.init 2 [[1, 2], [3, 4]] [1, 3] "forward"

/-- A pipeline in which two steps expose `coef_`. -/
def twoCoefSteps : List PipeStep :=
  [⟨some [1, 2], none, none, none⟩, ⟨some [3, 4], none, none, none⟩]

/-- A forward-mode update supplying that ambiguous pipeline. -/
def regFwdPipeInput : UpdateInput :=
  ⟨[0], [1], some (.pipeline twoCoefSteps), none⟩

/-- A forward-mode update supplying raw weights, whose feature index selects
data shape-compatible with them (2 weights, 2 selected columns). -/
def regFwdRawInput : UpdateInput :=
  ⟨[0], [1], some (.raw [1, 1]), some [true, true]⟩

/-- A small classification aggregator: 2 folds, two distinct labels. -/
def clfDemo0 : ClfState :=
  MvpResultsClassification.init 2 [[1, 2], [3, 4], [5, 6], [7, 8]] [0, 1, 0, 1] ""

/-- Two plain folds for the classification demo. -/
def clfDemoUs : List UpdateInput :=
  [⟨[0, 1], [0, 0], none, none⟩, ⟨[2, 3], [0, 1], none, none⟩]

def clfDemoFinal : ClfState :=
  (runClfUpdates clfDemo0 clfDemoUs).toOption.getD clfDemo0

/-- A core in forward mode with two classes (as the classification variant
defines it), used to exercise the Haufe branch. -/
def fwdCore : MvpCore :=
  { n_iter := 1, fs := "forward", X := [[1, 2, 5], [3, 4, 6]], y := [0, 1],
    n_class := some 2, n_vox := [0],
    voxel_values := [[0, 0, 0]], iter := 0 }

/-- The same forward-mode core with three distinct classes, exercising the
`pinv` path of the Haufe branch. -/
def fwdCore3 : MvpCore :=
  { n_iter := 1, fs := "forward", X := [[1, 2, 5], [3, 4, 6]], y := [0, 1, 2],
    n_class := some 3, n_vox := [0],
    voxel_values := [[0, 0, 0]], iter := 0 }

end Skbold

namespace Skbold

/-! ### Lemmas about boolean-mask indexing -/

theorem boolIndex_nil_left {α : Type} (bs : List Bool) :
    boolIndex ([] : List α) bs = [] := by
  cases bs <;> rfl

theorem mem_of_mem_boolIndex {α : Type} {x : α} :
    ∀ {xs : List α} {bs : List Bool}, x ∈ boolIndex xs bs → x ∈ xs := by
  intro xs
  induction xs with
  | nil =>
    intro bs h
    rw [boolIndex_nil_left] at h
    exact absurd h (List.not_mem_nil x)
  | cons y ys ih =>
    intro bs h
    cases bs with
    | nil => exact absurd h (List.not_mem_nil x)
    | cons b bs' =>
      cases b with
      | false =>
        have h' : x ∈ boolIndex ys bs' := h
        exact List.mem_cons_of_mem _ (ih h')
      | true =>
        have h' : x ∈ y :: boolIndex ys bs' := h
        rcases List.mem_cons.1 h' with h1 | h1
        · exact h1 ▸ List.mem_cons_self _ _
        · exact List.mem_cons_of_mem _ (ih h1)

theorem boolIndex_all_false {α : Type} :
    ∀ (xs : List α) (bs : List Bool), (∀ b ∈ bs, b = false) → boolIndex xs bs = [] := by
  intro xs
  induction xs with
  | nil => intro bs _; exact boolIndex_nil_left bs
  | cons y ys ih =>
    intro bs hb
    cases bs with
    | nil => rfl
    | cons b bs' =>
      have h1 : b = false := hb b (List.mem_cons_self _ _)
      subst h1
      show boolIndex ys bs' = []
      exact ih bs' (fun c hc => hb c (List.mem_cons_of_mem _ hc))

theorem selection_masks_agree :
    ∀ (origMask : List Bool) (roiData : List ℚ) (threshold : ℚ),
      roiData.length = origMask.length →
      boolIndex ((overlapOf (roiIdxOf roiData threshold) origMask).map
        (fun o => decide (o = 2))) origMask
      = boolIndex (List.zipWith (fun m r => m && decide (threshold < r)) origMask roiData)
          origMask := by
  intro origMask
  induction origMask with
  | nil => intro roiData θ _; cases roiData <;> rfl
  | cons m ms ih =>
    intro roiData θ hlen
    cases roiData with
    | nil => simp at hlen
    | cons r rs =>
      have hlen' : rs.length = ms.length := by simpa using hlen
      have hrec := ih rs θ hlen'
      cases m with
      | false => exact hrec
      | true =>
        show (decide ((if decide (θ < r) then 1 else 0) + 1 = 2) :
              Bool) :: boolIndex ((overlapOf (roiIdxOf rs θ) ms).map
                (fun o => decide (o = 2))) ms
            = (true && decide (θ < r)) :: boolIndex
                (List.zipWith (fun m r => m && decide (θ < r)) ms rs) ms
        rw [hrec]
        by_cases hr : θ < r
        · simp [hr]
        · simp [hr]

/-- C1: for input matrices whose column count equals the cardinality of the
original mask, `RoiIndexer.transform` returns exactly the columns of `X` at the
original-mask true positions where the thresholded region mask also holds, in
original left-to-right order — i.e. selection by the logical AND of the two
masks restricted to the original mask's true positions — and it keeps the
number of rows of `X`. -/
theorem roi_transform_is_mask_intersection
    (origMask : List Bool) (roiData : List ℚ) (threshold : ℚ) (X : List (List ℚ))
    (hgeom : roiData.length = origMask.length)
    (_hX : ∀ row ∈ X, row.length = countTrue origMask) :
    RoiIndexer.transform origMask roiData threshold X
      = specIntersectSelect origMask roiData threshold X
    ∧ (RoiIndexer.transform origMask roiData threshold X).length = X.length := by
  constructor
  · show X.map (fun row => boolIndex row
        (boolIndex ((overlapOf (roiIdxOf roiData threshold) origMask).map
          (fun o => decide (o = 2))) origMask))
      = X.map (fun row => boolIndex row
        (boolIndex (List.zipWith (fun m r => m && decide (threshold < r)) origMask roiData)
          origMask))
    rw [selection_masks_agree origMask roiData threshold hgeom]
  · show (X.map _).length = X.length
    exact List.length_map _ _

/-- Witness for C1 at a concrete input: a 5-voxel geometry with a 3-voxel
original mask, a probabilistic region mask thresholded at 1/2, and two samples. -/
theorem roi_transform_is_mask_intersection_witness :
    ([(0 : ℚ), 9/10, 3/10, 0, 1].length = [true, false, true, false, true].length
      ∧ RoiIndexer.transform [true, false, true, false, true] [(0 : ℚ), 9/10, 3/10, 0, 1]
          (1/2) [[1, 2, 3], [4, 5, 6]]
        = specIntersectSelect [true, false, true, false, true] [(0 : ℚ), 9/10, 3/10, 0, 1]
            (1/2) [[1, 2, 3], [4, 5, 6]])
    ∧ RoiIndexer.transform [true, false, true, false, true] [(0 : ℚ), 9/10, 3/10, 0, 1]
        (1/2) [[1, 2, 3], [4, 5, 6]] = [[3], [6]] := by
  have h := roi_transform_is_mask_intersection
    [true, false, true, false, true] [(0 : ℚ), 9/10, 3/10, 0, 1] (1/2)
    [[1, 2, 3], [4, 5, 6]] (by decide) (by decide)
  refine ⟨⟨by decide, h.1⟩, ?_⟩
  norm_num [RoiIndexer.transform, roiIdxOf, overlapOf, boolIndex]

/-- C5: when the intersection of the original mask and the thresholded region
mask is empty, `RoiIndexer.transform` still returns a well-formed result: the
same number of rows as `X`, each with zero columns (the embedding is a total
function — no error is raised). -/
theorem roi_transform_empty_intersection
    (origMask : List Bool) (roiData : List ℚ) (threshold : ℚ) (X : List (List ℚ))
    (_hX : ∀ row ∈ X, row.length = countTrue origMask)
    (hempty : ∀ o ∈ overlapOf (roiIdxOf roiData threshold) origMask, o ≠ 2) :
    (RoiIndexer.transform origMask roiData threshold X).length = X.length
    ∧ ∀ row ∈ RoiIndexer.transform origMask roiData threshold X, row = [] := by
  have hsel : ∀ b ∈ boolIndex ((overlapOf (roiIdxOf roiData threshold) origMask).map
      (fun o => decide (o = 2))) origMask, b = false := by
    intro b hb
    have hmem := mem_of_mem_boolIndex hb
    rcases List.mem_map.1 hmem with ⟨o, ho, rfl⟩
    simpa using hempty o ho
  constructor
  · show (X.map _).length = X.length
    exact List.length_map _ _
  · intro row hrow
    have hrow' : row ∈ X.map (fun r => boolIndex r
        (boolIndex ((overlapOf (roiIdxOf roiData threshold) origMask).map
          (fun o => decide (o = 2))) origMask)) := hrow
    rcases List.mem_map.1 hrow' with ⟨r, _, rfl⟩
    exact boolIndex_all_false r _ hsel

/-- Witness for C5 at a concrete input: region mask entirely below threshold. -/
theorem roi_transform_empty_intersection_witness :
    (RoiIndexer.transform [true, true, false] [(0 : ℚ), 1/4, 2] (1/2)
        [[1, 2], [3, 4], [5, 6]]).length = 3
    ∧ RoiIndexer.transform [true, true, false] [(0 : ℚ), 1/4, 2] (1/2)
        [[1, 2], [3, 4], [5, 6]] = [[], [], []] := by
  have h := roi_transform_empty_intersection [true, true, false] [(0 : ℚ), 1/4, 2] (1/2)
    [[1, 2], [3, 4], [5, 6]] (by decide) (by norm_num [overlapOf, roiIdxOf])
  refine ⟨h.1, ?_⟩
  norm_num [RoiIndexer.transform, roiIdxOf, overlapOf, boolIndex]

/-! ### Small list lemmas used by the aggregator proofs -/

theorem getD_eq_of_lt {α : Type} (d : α) :
    ∀ (l : List α) (j : ℕ) (h : j < l.length), l.getD j d = l.get ⟨j, h⟩ := by
  intro l
  induction l with
  | nil => intro j h; simp at h
  | cons x xs ih =>
    intro j h
    cases j with
    | zero => rfl
    | succ n => exact ih n (by simpa using h)

theorem getD_set_self {α : Type} (d a : α) :
    ∀ (l : List α) (i : ℕ), i < l.length → (l.set i a).getD i d = a := by
  intro l
  induction l with
  | nil => intro i h; simp at h
  | cons x xs ih =>
    intro i h
    cases i with
    | zero => rfl
    | succ n => exact ih n (by simpa using h)

theorem getD_set_ne {α : Type} (d a : α) :
    ∀ (l : List α) (i j : ℕ), i ≠ j → (l.set i a).getD j d = l.getD j d := by
  intro l
  induction l with
  | nil => intro i j _; cases i <;> rfl
  | cons x xs ih =>
    intro i j hij
    cases i with
    | zero =>
      cases j with
      | zero => exact absurd rfl hij
      | succ m => rfl
    | succ n =>
      cases j with
      | zero => rfl
      | succ m => exact ih n m (fun hnm => hij (by rw [hnm]))

theorem getD_range_map (f : ℕ → ℚ) (k j : ℕ) (h : j < k) :
    ((List.range k).map f).getD j 0 = f j := by
  have hlen : j < ((List.range k).map f).length := by simpa using h
  rw [getD_eq_of_lt 0 _ j hlen]
  simp

theorem getD_zipWith {α : Type} (f : α → α → α) (d : α) :
    ∀ (A B : List α) (j : ℕ), j < A.length → j < B.length →
      (List.zipWith f A B).getD j d = f (A.getD j d) (B.getD j d) := by
  intro A
  induction A with
  | nil => intro B j h _; simp at h
  | cons a as ih =>
    intro B j h1 h2
    cases B with
    | nil => simp at h2
    | cons b bs =>
      cases j with
      | zero => rfl
      | succ n => exact ih bs n (by simpa using h1) (by simpa using h2)

theorem getD_mem {α : Type} (d : α) (l : List α) (i : ℕ) (h : i < l.length) :
    l.getD i d ∈ l := by
  rw [getD_eq_of_lt d l i h]
  exact List.get_mem l i h

/-! ### C7: the t-statistic conversion of MvpResults.write -/

/-- C7: at every voxel position `j`, `write` with the t-statistic conversion
enabled produces `mean(values) / (std(values) / sqrt(n_folds))` computed over
the per-fold values stored at that voxel, and with the conversion disabled it
produces the plain per-voxel mean. -/
theorem write_tstat_per_voxel (sq : ℚ → ℚ) (voxel_values : List (List ℚ)) (j : ℕ)
    (hj : j < (voxel_values.headD []).length) :
    (writeReduce true sq voxel_values).getD j 0 = tStatAt sq voxel_values j
    ∧ (writeReduce false sq voxel_values).getD j 0 = listMean (column voxel_values j) := by
  have hmean : (meanAxis0 voxel_values).getD j 0 = listMean (column voxel_values j) :=
    getD_range_map _ _ j hj
  have hstd : (stdAxis0 sq voxel_values).getD j 0
      = sq (((column voxel_values j).map
          (fun v => (v - listMean (column voxel_values j)) ^ 2)).sum
        / voxel_values.length) :=
    getD_range_map _ _ j hj
  constructor
  · show (List.zipWith (fun m s => m / (s / sq voxel_values.length))
        (meanAxis0 voxel_values) (stdAxis0 sq voxel_values)).getD j 0
      = tStatAt sq voxel_values j
    rw [getD_zipWith _ 0 _ _ j (by simpa [meanAxis0] using hj)
      (by simpa [stdAxis0] using hj)]
    rw [hmean, hstd]
    have hcl : (column voxel_values j).length = voxel_values.length := by
      simp [column]
    simp only [tStatAt, hcl]
  · show (meanAxis0 voxel_values).getD j 0 = listMean (column voxel_values j)
    exact hmean

/-- Witness for C7 at a concrete 2-fold, 2-voxel array (with the abstract
square root instantiated by the identity). -/
theorem write_tstat_per_voxel_witness :
    (writeReduce true (fun q => q) [[1, 2], [3, 4]]).getD 0 0
        = tStatAt (fun q => q) [[1, 2], [3, 4]] 0
    ∧ (writeReduce false (fun q => q) [[1, 2], [3, 4]]).getD 0 0
        = listMean (column [[1, 2], [3, 4]] 0) :=
  write_tstat_per_voxel (fun q => q) [[1, 2], [3, 4]] 0 (by decide)

/-! ### C9: the non-zero voxel count reported by MvpResults.write -/

/-- C9 (evidence of the defect): on the subset `[-1, 2]` (one negative and one
positive voxel), the count `write` computes — `(subset > 0).sum()` — is 1,
while the number of entries different from zero, which both the printed
message ("Number of non-zero voxels") and the spec promise, is 2. -/
theorem write_nonzero_count_discrepancy :
    writeSubsetNNonzero [-1, 2] [0, 0] 0 = 1
    ∧ countNonzero [-1, 2] = 2 := by
  constructor
  · norm_num [writeSubsetNNonzero, writeNNonzero, boolIndex, List.filter]
  · norm_num [countNonzero, List.filter]

/-! ### C3: the Haufe forward-model branch of _update_voxel_values -/

/-- C3 (amended): in forward scoring mode with the class count `nc` defined
and a (k,)-shaped weight vector `W` shape-compatible with the mask-selected
data, the update stores `cov(X)·W` at the fold's row when `nc < 3`; when
`nc ≥ 3` the source computes `np.linalg.pinv(np.cov(s))` on the 0-d
covariance of the 1-D projection `s = W·Xᵀ`, which raises `LinAlgError`, so
the update fails and nothing is stored. -/
theorem forward_model_cov_or_pinv_error (core : MvpCore) (W : List ℚ)
    (mask : List Bool) (nc : ℕ)
    (hf : core.fs = "forward") (hc : core.n_class = some nc)
    (hshape : ∀ row ∈ selectColsMask core.X mask, row.length = W.length) :
    (nc < 3 → updateVoxelValues core (.raw W) (some mask)
      = .ok { core with
          n_vox := core.n_vox.set core.iter ((W.length : ℕ) : ℚ),
          voxel_values := core.voxel_values.set core.iter
            (maskAssign (core.voxel_values.getD core.iter []) mask
              (matVec (covCols (selectColsMask core.X mask)) W)) })
    ∧ (3 ≤ nc → updateVoxelValues core (.raw W) (some mask)
      = .error (.linAlgError
          "0-dimensional array given. Array must be at least two-dimensional")) := by
  have hcoef : fnmatchCoefUfs core.fs = false := by rw [hf]; rfl
  have hdot : dotWXT W (selectColsMask core.X mask)
      = .ok ((selectColsMask core.X mask).map
          (fun row => (List.zipWith (fun a b => a * b) W row).sum)) := by
    unfold dotWXT
    rw [if_pos hshape]
  constructor
  · intro h3
    unfold updateVoxelValues resolveVals
    rw [hcoef]
    simp only [hf, hc, Bool.false_eq_true, if_false, if_pos rfl]
    rw [hdot]
    simp only [if_pos h3]
    rfl
  · intro h3
    unfold updateVoxelValues resolveVals
    rw [hcoef]
    simp only [hf, hc, Bool.false_eq_true, if_false, if_pos rfl]
    rw [hdot]
    simp only [if_neg (by omega : ¬ nc < 3)]
    rfl

/-- Witness for C3 at concrete cores (2 samples, 3 features of which the mask
keeps 2, matching the 2 weights): the 2-class core stores `cov(X)·W`; the
3-class core raises the `LinAlgError` of `pinv`. -/
theorem forward_model_cov_or_pinv_error_witness :
    updateVoxelValues fwdCore (.raw [1, 1]) (some [true, false, true])
      = .ok { fwdCore with
          n_vox := fwdCore.n_vox.set fwdCore.iter ((([1, 1] : List ℚ).length : ℕ) : ℚ),
          voxel_values := fwdCore.voxel_values.set fwdCore.iter
            (maskAssign (fwdCore.voxel_values.getD fwdCore.iter []) [true, false, true]
              (matVec (covCols (selectColsMask fwdCore.X [true, false, true])) [1, 1])) }
    ∧ updateVoxelValues fwdCore3 (.raw [1, 1]) (some [true, false, true])
      = .error (.linAlgError
          "0-dimensional array given. Array must be at least two-dimensional") :=
  ⟨(forward_model_cov_or_pinv_error fwdCore [1, 1] [true, false, true] 2 rfl rfl
      (by decide)).1 (by decide),
   (forward_model_cov_or_pinv_error fwdCore3 [1, 1] [true, false, true] 3 rfl rfl
      (by decide)).2 (by decide)⟩

/-- Counterexample for C3 as stated: with 3 distinct classes and a (k,)-shaped
weight vector, the forward branch raises `LinAlgError` at
`np.linalg.pinv(np.cov(s))` (the covariance of the 1-D `s` is a 0-d array) —
the update errors, so no voxel values equal to `cov(X)·W·pinv(cov(s))` are
ever stored. -/
theorem forward_model_high_class_pinv_raises :
    updateVoxelValues fwdCore3 (.raw [1, 1]) (some [true, false, true])
      = .error (.linAlgError
          "0-dimensional array given. Array must be at least two-dimensional") := rfl

end Skbold

namespace Skbold

/-! ### Lemmas about _update_voxel_values and the regression update -/

theorem updateVoxelValues_ok_core {c : MvpCore} {v : FeatVals} {idx : Option (List Bool)}
    {c' : MvpCore} (h : updateVoxelValues c v idx = .ok c') :
    c'.n_iter = c.n_iter ∧ c'.fs = c.fs ∧ c'.X = c.X ∧ c'.y = c.y
      ∧ c'.n_class = c.n_class ∧ c'.iter = c.iter := by
  simp only [updateVoxelValues] at h
  cases hr : resolveVals c.fs (Xcols c.X) v idx with
  | error e => simp [hr] at h
  | ok p =>
    obtain ⟨w, idx'⟩ := p
    simp only [hr] at h
    by_cases hcoef : fnmatchCoefUfs c.fs = true
    · rw [if_pos hcoef] at h
      cases h
      exact ⟨rfl, rfl, rfl, rfl, rfl, rfl⟩
    · rw [if_neg hcoef] at h
      by_cases hfs : c.fs = "forward"
      · rw [if_pos hfs] at h
        cases idx' with
        | none =>
          by_cases hw : w.length = 1
          · simp only [if_pos hw] at h
            cases hnc : c.n_class with
            | none => simp [hnc] at h
            | some nc => simp [hnc] at h
          · simp only [if_neg hw] at h
            simp at h
        | some mask =>
          cases hd : dotWXT w (selectColsMask c.X mask) with
          | error e => simp [hd] at h
          | ok s =>
            simp only [hd] at h
            cases hnc : c.n_class with
            | none => simp [hnc] at h
            | some nc =>
              simp only [hnc] at h
              by_cases h3 : nc < 3
              · simp only [if_pos h3] at h
                cases h
                exact ⟨rfl, rfl, rfl, rfl, rfl, rfl⟩
              · simp only [if_neg h3] at h
                simp at h
      · rw [if_neg hfs] at h
        cases h
        exact ⟨rfl, rfl, rfl, rfl, rfl, rfl⟩

theorem reg_update_ok {st : RegState} {u : UpdateInput} {st' : RegState}
    (h : MvpResultsRegression.update st u = .ok st') :
    st'.core.y = st.core.y ∧ st'.core.n_iter = st.core.n_iter
      ∧ st'.core.iter = st.core.iter + 1
      ∧ st.core.iter < st.core.n_iter
      ∧ st'.R2 = st.R2.set st.core.iter (r2_score (yTrueOf st.core.y u) u.y_pred)
      ∧ st'.mse = MseVal.scalar (mean_squared_error (yTrueOf st.core.y u) u.y_pred)
      ∧ st'.core.fs = st.core.fs ∧ st'.core.n_class = st.core.n_class := by
  simp only [MvpResultsRegression.update] at h
  by_cases hlt : st.core.iter < st.core.n_iter
  · rw [if_pos hlt] at h
    by_cases hall : (u.test_idx.all fun t => decide (t < st.core.y.length)) = true
    · rw [if_pos hall] at h
      cases hv : u.values with
      | none =>
        simp only [hv] at h
        cases h
        exact ⟨rfl, rfl, rfl, hlt, rfl, rfl, rfl, rfl⟩
      | some v =>
        simp only [hv] at h
        cases hu : updateVoxelValues st.core v u.idx with
        | error e => simp [hu] at h
        | ok c' =>
          simp only [hu] at h
          cases h
          obtain ⟨h1, h2, _h3, h4, h5, _h6⟩ := updateVoxelValues_ok_core hu
          exact ⟨h4, h1, rfl, hlt, rfl, rfl, h2, h5⟩
    · rw [if_neg hall] at h
      simp at h
  · rw [if_neg hlt] at h
    simp at h

theorem getLastD_indep {α : Type} (l : List α) (hne : l ≠ []) (a b : α) :
    l.getLastD a = l.getLastD b := by
  cases l with
  | nil => exact absurd rfl hne
  | cons x xs => rfl

theorem runRegUpdates_spec :
    ∀ (us : List UpdateInput) (st st' : RegState),
      runRegUpdates st us = .ok st' →
      st'.core.y = st.core.y
      ∧ st'.core.n_iter = st.core.n_iter
      ∧ st'.core.iter = st.core.iter + us.length
      ∧ st'.R2.length = st.R2.length
      ∧ (us ≠ [] → st'.core.iter ≤ st.core.n_iter
          ∧ st'.mse = MseVal.scalar (mean_squared_error
              (yTrueOf st.core.y (us.getLastD defaultUpdateInput))
              (us.getLastD defaultUpdateInput).y_pred))
      ∧ (∀ i, i < st.core.iter → st'.R2.getD i 0 = st.R2.getD i 0)
      ∧ (st.R2.length = st.core.n_iter →
          ∀ j, (hj : j < us.length) →
            st'.R2.getD (st.core.iter + j) 0
              = r2_score (yTrueOf st.core.y (us.get ⟨j, hj⟩))
                  (us.get ⟨j, hj⟩).y_pred) := by
  intro us
  induction us with
  | nil =>
    intro st st' h
    have hst : st' = st := by
      simp only [runRegUpdates] at h
      exact (Except.ok.inj h).symm
    subst hst
    exact ⟨rfl, rfl, by simp, rfl, by simp, fun i _ => rfl,
      fun _ j hj => absurd hj (by simp)⟩
  | cons u us ih =>
    intro st st' h
    simp only [runRegUpdates] at h
    cases hu : MvpResultsRegression.update st u with
    | error e => simp [hu] at h
    | ok st1 =>
      simp only [hu] at h
      obtain ⟨gy, gn, git, glt, gR2, gmse, _gfs, _gnc⟩ := reg_update_ok hu
      obtain ⟨hy, hn, hit, hR2len, hlast, hpres, hset⟩ := ih st1 st' h
      have hR2len' : st1.R2.length = st.R2.length := by
        rw [gR2]
        exact List.length_set st.R2 st.core.iter _
      refine ⟨hy.trans gy, hn.trans gn, ?_, hR2len.trans hR2len', ?_, ?_, ?_⟩
      · rw [hit, git]
        simp only [List.length_cons]
        omega
      · intro _
        by_cases hus : us = []
        · subst hus
          have hst : st' = st1 := by
            simp only [runRegUpdates] at h
            exact (Except.ok.inj h).symm
          subst hst
          constructor
          · rw [git]
            omega
          · exact gmse
        · obtain ⟨hle, hmse⟩ := hlast hus
          constructor
          · rw [← gn]
            exact hle
          · have hl : (u :: us).getLastD defaultUpdateInput
                = us.getLastD defaultUpdateInput := by
              rw [List.getLastD_cons]
              exact getLastD_indep us hus u defaultUpdateInput
            rw [hl, ← gy]
            exact hmse
      · intro i hi
        have hi1 : i < st1.core.iter := by
          rw [git]
          omega
        rw [hpres i hi1, gR2, getD_set_ne 0 _ st.R2 st.core.iter i (by omega)]
      · intro hlen j hj
        cases j with
        | zero =>
          have h0 : st.core.iter < st1.core.iter := by
            rw [git]
            omega
          rw [Nat.add_zero, hpres st.core.iter h0, gR2,
            getD_set_self 0 _ st.R2 st.core.iter (by rw [hlen]; exact glt)]
          rfl
        | succ n =>
          have hlen1 : st1.R2.length = st1.core.n_iter := by
            rw [hR2len', hlen, ← gn]
          have hn' : n < us.length := by simpa using hj
          have hrec := hset hlen1 n hn'
          rw [git] at hrec
          rw [gy] at hrec
          have harith : st.core.iter + (n + 1) = st.core.iter + 1 + n := by omega
          rw [harith]
          exact hrec

/-! ### C2: the regression MSE accumulator is overwritten each fold -/

/-- C2: after a successful sequence of `update` calls on a freshly constructed
regression aggregator, the stored MSE is a single scalar equal to the last
fold's mean squared error (all earlier folds' values are discarded), the R²
accumulator holds one value per fold at the fold's index, and the discarded
last-fold MSE value is what fills the whole `MSE` column of the summary
produced by `compute_scores`. -/
theorem regression_mse_overwritten (n_iter : ℕ) (X : List (List ℚ)) (y : List ℚ)
    (fs : String) (us : List UpdateInput) (st' : RegState)
    (hne : us ≠ [])
    (h : runRegUpdates (MvpResultsRegression.init n_iter X y fs) us = .ok st') :
    st'.mse = MseVal.scalar (mean_squared_error
        (yTrueOf y (us.getLastD defaultUpdateInput))
        (us.getLastD defaultUpdateInput).y_pred)
    ∧ (∀ j, (hj : j < us.length) →
        st'.R2.getD j 0 = r2_score (yTrueOf y (us.get ⟨j, hj⟩)) (us.get ⟨j, hj⟩).y_pred)
    ∧ (MvpResultsRegression.compute_scores st').MSE
        = List.replicate n_iter (mean_squared_error
            (yTrueOf y (us.getLastD defaultUpdateInput))
            (us.getLastD defaultUpdateInput).y_pred) := by
  obtain ⟨_hy, hn, _hit, _hR2len, hlast, _hpres, hset⟩ :=
    runRegUpdates_spec us (MvpResultsRegression.init n_iter X y fs) st' h
  obtain ⟨_hle, hmse⟩ := hlast hne
  refine ⟨hmse, ?_, ?_⟩
  · intro j hj
    have hlen : (MvpResultsRegression.init n_iter X y fs).R2.length
        = (MvpResultsRegression.init n_iter X y fs).core.n_iter := by
      simp [MvpResultsRegression.init]
    have hval := hset hlen j hj
    simpa [MvpResultsRegression.init] using hval
  · simp only [MvpResultsRegression.compute_scores, hmse, hn]
    rfl

/-- Witness for C2: two regression folds on a 2-fold aggregator. -/
theorem regression_mse_overwritten_witness :
    regDemoUs ≠ []
    ∧ regDemoFinal.mse = MseVal.scalar (mean_squared_error
        (yTrueOf [1, 3] (regDemoUs.getLastD defaultUpdateInput))
        (regDemoUs.getLastD defaultUpdateInput).y_pred) := by
  have h := regression_mse_overwritten 2 [[1, 2], [3, 4]] [1, 3] "" regDemoUs regDemoFinal
    (by decide) rfl
  exact ⟨by decide, h.1⟩

/-! ### C10: forward scoring on the regression aggregator -/

theorem updateVoxelValues_forward_noclass {c : MvpCore} (v : FeatVals)
    (idx : Option (List Bool)) (hfs : c.fs = "forward") (hnc : c.n_class = none) :
    ∀ c', updateVoxelValues c v idx ≠ .ok c' := by
  intro c' h
  have hcoef : fnmatchCoefUfs c.fs = false := by rw [hfs]; rfl
  simp only [updateVoxelValues] at h
  cases hr : resolveVals c.fs (Xcols c.X) v idx with
  | error e => simp [hr] at h
  | ok p =>
    obtain ⟨w, idx'⟩ := p
    simp only [hr] at h
    rw [hcoef] at h
    simp only [Bool.false_eq_true, if_false] at h
    rw [hfs, hnc] at h
    cases idx' with
    | none =>
      by_cases hw : w.length = 1
      · simp [hw] at h
      · simp [hw] at h
    | some mask =>
      cases hd : dotWXT w (selectColsMask c.X mask) with
      | error e => simp [hd] at h
      | ok s => simp [hd] at h

theorem updateVoxelValues_forward_noclass_raw {c : MvpCore} (W : List ℚ)
    (mask : List Bool) (hfs : c.fs = "forward") (hnc : c.n_class = none)
    (hshape : ∀ row ∈ selectColsMask c.X mask, row.length = W.length) :
    updateVoxelValues c (.raw W) (some mask) = .error (.attributeError "n_class") := by
  have hcoef : fnmatchCoefUfs c.fs = false := by rw [hfs]; rfl
  have hdot : dotWXT W (selectColsMask c.X mask)
      = .ok ((selectColsMask c.X mask).map
          (fun row => (List.zipWith (fun a b => a * b) W row).sum)) := by
    unfold dotWXT
    rw [if_pos hshape]
  unfold updateVoxelValues resolveVals
  rw [hcoef]
  simp only [hfs, hnc, Bool.false_eq_true, if_false, if_pos rfl]
  rw [hdot]
  rfl

/-- C10 (amended): on the regression aggregator (which never defines the
class-count attribute `n_class`), an `update` call supplying feature values
under forward scoring never completes a fold — it never stores voxel values.
When the supplied values are raw weights and the explicit feature index
selects data shape-compatible with them, the failure is precisely the
attribute error on `n_class`, read on line 157 after `W`, `X` and `s` are
computed; a shape mismatch or a failing pipeline extraction raises its own
`ValueError` before that lookup. -/
theorem regression_forward_always_fails (st : RegState) (u : UpdateInput) (v : FeatVals)
    (hfs : st.core.fs = "forward") (hnc : st.core.n_class = none)
    (hv : u.values = some v) :
    (∀ st', MvpResultsRegression.update st u ≠ .ok st')
    ∧ (∀ (W : List ℚ) (mask : List Bool), v = FeatVals.raw W → u.idx = some mask →
        (∀ row ∈ selectColsMask st.core.X mask, row.length = W.length) →
        st.core.iter < st.core.n_iter →
        (u.test_idx.all fun t => decide (t < st.core.y.length)) = true →
        MvpResultsRegression.update st u = .error (.attributeError "n_class")) := by
  constructor
  · intro st' h
    simp only [MvpResultsRegression.update] at h
    by_cases hlt : st.core.iter < st.core.n_iter
    · rw [if_pos hlt] at h
      by_cases hall : (u.test_idx.all fun t => decide (t < st.core.y.length)) = true
      · rw [if_pos hall] at h
        simp only [hv] at h
        cases hu : updateVoxelValues st.core v u.idx with
        | error e => simp [hu] at h
        | ok c' => exact updateVoxelValues_forward_noclass v u.idx hfs hnc c' hu
      · rw [if_neg hall] at h
        simp at h
    · rw [if_neg hlt] at h
      simp at h
  · intro W mask hW hidx hshape hlt hall
    subst hW
    simp only [MvpResultsRegression.update]
    rw [if_pos hlt, if_pos hall]
    simp only [hv, hidx]
    rw [updateVoxelValues_forward_noclass_raw W mask hfs hnc hshape]

/-- Witness for C10 at a concrete input: the forward-mode regression
aggregator fed raw weights with a shape-compatible feature index fails with
the attribute error on `n_class`. -/
theorem regression_forward_always_fails_witness :
    MvpResultsRegression.update regFwd0 regFwdRawInput
      = .error (.attributeError "n_class") := by
  have h := regression_forward_always_fails regFwd0 regFwdRawInput (.raw [1, 1])
    rfl rfl rfl
  exact h.2 [1, 1] [true, true] rfl rfl (by decide) (by decide) (by decide)

/-- Counterexample for C10 as stated: with a pipeline in which two steps
expose `coef_`, the forward-mode regression update fails with the pipeline
configuration `ValueError` — not with an attribute error. -/
theorem regression_forward_pipeline_valueerror :
    MvpResultsRegression.update regFwd0 regFwdPipeInput
      = .error (.valueError "Found more than one coef_ attribute in the pipeline!")
    ∧ PyErr.isAttributeError
        (.valueError "Found more than one coef_ attribute in the pipeline!") = false :=
  ⟨rfl, rfl⟩

end Skbold

namespace Skbold

/-! ### C4: ambiguity and absence errors in pipeline extraction -/

theorem extractFromPipeline_err (fs : String) (xCols : ℕ) (steps : List PipeStep)
    (idx : Option (List Bool))
    (h2 : 2 ≤ (matchedVals fs steps).length
        ∨ ((matchedVals fs steps).length = 0 ∧ (ensembleSteps steps).length ≠ 1)) :
    extractFromPipeline fs xCols steps idx
      = .error (.valueError
          (if (matchedVals fs steps).length = 0 then
            "Found no " ++ matchAttr fs ++ " attribute anywhere in the pipeline!"
          else
            "Found more than one " ++ matchAttr fs ++ " attribute in the pipeline!")) := by
  unfold extractFromPipeline
  cases hm : matchedVals fs steps with
  | nil =>
    rcases h2 with h2 | ⟨_, hens⟩
    · rw [hm] at h2
      simp at h2
    · cases he : ensembleSteps steps with
      | nil => simp
      | cons e es =>
        cases es with
        | nil =>
          rw [he] at hens
          simp at hens
        | cons e2 es2 => simp
  | cons v vs =>
    cases vs with
    | nil =>
      rcases h2 with h2 | ⟨h0, _⟩
      · rw [hm] at h2
        simp at h2
      · rw [hm] at h0
        simp at h0
    | cons w ws => simp

theorem updateVoxelValues_pipeline_err (c : MvpCore) (steps : List PipeStep)
    (idx : Option (List Bool))
    (h2 : 2 ≤ (matchedVals c.fs steps).length
        ∨ ((matchedVals c.fs steps).length = 0 ∧ (ensembleSteps steps).length ≠ 1)) :
    updateVoxelValues c (.pipeline steps) idx
      = .error (.valueError
          (if (matchedVals c.fs steps).length = 0 then
            "Found no " ++ matchAttr c.fs ++ " attribute anywhere in the pipeline!"
          else
            "Found more than one " ++ matchAttr c.fs ++ " attribute in the pipeline!")) := by
  simp only [updateVoxelValues, resolveVals]
  rw [extractFromPipeline_err c.fs (Xcols c.X) steps idx h2]

/-- C4: when a pipeline is supplied as the feature-values argument, ambiguity
(two or more steps exposing the matched attribute) raises the "more than one"
configuration error, and absence (no step exposing it, with no single ensemble
step either) raises the "no ... anywhere" error — in both cases the fold
update never completes. -/
theorem pipeline_attribute_errors (core : MvpCore) (steps : List PipeStep)
    (idx : Option (List Bool))
    (h2 : 2 ≤ (matchedVals core.fs steps).length
        ∨ ((matchedVals core.fs steps).length = 0 ∧ (ensembleSteps steps).length ≠ 1)) :
    updateVoxelValues core (.pipeline steps) idx
      = .error (.valueError
          (if (matchedVals core.fs steps).length = 0 then
            "Found no " ++ matchAttr core.fs ++ " attribute anywhere in the pipeline!"
          else
            "Found more than one " ++ matchAttr core.fs ++ " attribute in the pipeline!"))
    ∧ ∀ (stC : ClfState) (u : UpdateInput) (st' : ClfState),
        stC.core.fs = core.fs → u.values = some (.pipeline steps) →
        MvpResultsClassification.update stC u ≠ .ok st' := by
  constructor
  · exact updateVoxelValues_pipeline_err core steps idx h2
  · intro stC u st' hfs hv h
    have h2' : 2 ≤ (matchedVals stC.core.fs steps).length
        ∨ ((matchedVals stC.core.fs steps).length = 0
            ∧ (ensembleSteps steps).length ≠ 1) := by
      rw [hfs]
      exact h2
    simp only [MvpResultsClassification.update] at h
    by_cases hlt : stC.core.iter < stC.core.n_iter
    · rw [if_pos hlt] at h
      by_cases hall : (u.test_idx.all fun t => decide (t < stC.core.y.length)) = true
      · rw [if_pos hall] at h
        cases hcm : assignConfmat (stC.core.n_class.getD 0)
            (confusion_matrix (yTrueOf stC.core.y u) u.y_pred) with
        | error e => simp [hcm] at h
        | ok cm =>
          simp only [hcm, hv] at h
          rw [updateVoxelValues_pipeline_err stC.core steps u.idx h2'] at h
          simp at h
      · rw [if_neg hall] at h
        simp at h
    · rw [if_neg hlt] at h
      simp at h

/-- Witness for C4: forward mode (matching attribute `coef_`) with two
pipeline steps both exposing `coef_` raises the ambiguity error. -/
theorem pipeline_attribute_errors_witness :
    2 ≤ (matchedVals fwdCore.fs twoCoefSteps).length
    ∧ updateVoxelValues fwdCore (.pipeline twoCoefSteps) none
      = .error (.valueError
          (if (matchedVals fwdCore.fs twoCoefSteps).length = 0 then
            "Found no " ++ matchAttr fwdCore.fs ++ " attribute anywhere in the pipeline!"
          else
            "Found more than one " ++ matchAttr fwdCore.fs
              ++ " attribute in the pipeline!")) := by
  have h := pipeline_attribute_errors fwdCore twoCoefSteps none (Or.inl (by decide))
  exact ⟨by decide, h.1⟩

/-! ### C6: per-fold confusion matrices and their aggregate -/

theorem confusion_matrix_sized (y_true y_pred : List ℚ) :
    (confusion_matrix y_true y_pred).length = (npUnique (y_true ++ y_pred)).length
    ∧ ∀ r ∈ confusion_matrix y_true y_pred,
        r.length = (npUnique (y_true ++ y_pred)).length := by
  constructor
  · simp [confusion_matrix]
  · intro r hr
    simp only [confusion_matrix] at hr
    rcases List.mem_map.1 hr with ⟨a, _, rfl⟩
    simp

theorem assignConfmat_ok_sized {slot : ℕ} {y_true y_pred : List ℚ} {M : List (List ℕ)}
    (h : assignConfmat slot (confusion_matrix y_true y_pred) = .ok M) :
    sizedMat slot M := by
  unfold assignConfmat at h
  by_cases h1 : (confusion_matrix y_true y_pred).length = slot
  · rw [if_pos h1] at h
    cases h
    obtain ⟨hl, hr⟩ := confusion_matrix_sized y_true y_pred
    refine ⟨h1, fun r hrm => ?_⟩
    rw [hr r hrm, ← hl]
    exact h1
  · rw [if_neg h1] at h
    by_cases hone : (confusion_matrix y_true y_pred).length = 1
    · rw [if_pos hone] at h
      cases h
      refine ⟨by simp, fun r hrm => ?_⟩
      rw [List.eq_of_mem_replicate hrm]
      simp
    · rw [if_neg hone] at h
      simp at h

theorem mem_of_mem_set {α : Type} :
    ∀ (l : List α) (i : ℕ) (a x : α), x ∈ l.set i a → x ∈ l ∨ x = a := by
  intro l
  induction l with
  | nil => intro i a x hx; simp at hx
  | cons y ys ih =>
    intro i a x hx
    cases i with
    | zero =>
      rcases List.mem_cons.1 hx with h1 | h1
      · exact Or.inr h1
      · exact Or.inl (List.mem_cons_of_mem _ h1)
    | succ n =>
      rcases List.mem_cons.1 hx with h1 | h1
      · exact Or.inl (h1 ▸ List.mem_cons_self _ _)
      · rcases ih n a x h1 with h2 | h2
        · exact Or.inl (List.mem_cons_of_mem _ h2)
        · exact Or.inr h2

theorem clf_update_ok {st : ClfState} {u : UpdateInput} {st' : ClfState}
    (h : MvpResultsClassification.update st u = .ok st') :
    st'.core.y = st.core.y ∧ st'.core.n_iter = st.core.n_iter
      ∧ st'.core.iter = st.core.iter + 1
      ∧ st.core.iter < st.core.n_iter
      ∧ st'.core.n_class = st.core.n_class
      ∧ ∃ cm, assignConfmat (st.core.n_class.getD 0)
            (confusion_matrix (yTrueOf st.core.y u) u.y_pred) = .ok cm
          ∧ st'.confmat = st.confmat.set st.core.iter cm := by
  simp only [MvpResultsClassification.update] at h
  by_cases hlt : st.core.iter < st.core.n_iter
  · rw [if_pos hlt] at h
    by_cases hall : (u.test_idx.all fun t => decide (t < st.core.y.length)) = true
    · rw [if_pos hall] at h
      cases hcm : assignConfmat (st.core.n_class.getD 0)
          (confusion_matrix (yTrueOf st.core.y u) u.y_pred) with
      | error e => simp [hcm] at h
      | ok cm =>
        simp only [hcm] at h
        cases hv : u.values with
        | none =>
          simp only [hv] at h
          cases h
          exact ⟨rfl, rfl, rfl, hlt, rfl, cm, rfl, rfl⟩
        | some v =>
          simp only [hv] at h
          cases hu : updateVoxelValues st.core v u.idx with
          | error e => simp [hu] at h
          | ok c' =>
            simp only [hu] at h
            cases h
            obtain ⟨h1, _h2, _h3, h4, h5, _h6⟩ := updateVoxelValues_ok_core hu
            exact ⟨h4, h1, rfl, hlt, h5, cm, rfl, rfl⟩
    · rw [if_neg hall] at h
      simp at h
  · rw [if_neg hlt] at h
    simp at h

theorem runClfUpdates_spec :
    ∀ (us : List UpdateInput) (st st' : ClfState),
      runClfUpdates st us = .ok st' →
      st'.core.n_iter = st.core.n_iter
      ∧ st'.core.iter = st.core.iter + us.length
      ∧ (us ≠ [] → st'.core.iter ≤ st.core.n_iter)
      ∧ st'.core.n_class = st.core.n_class
      ∧ ((∀ m ∈ st.confmat, sizedMat (st.core.n_class.getD 0) m) →
          ∀ m ∈ st'.confmat, sizedMat (st.core.n_class.getD 0) m) := by
  intro us
  induction us with
  | nil =>
    intro st st' h
    have hst : st' = st := by
      simp only [runClfUpdates] at h
      exact (Except.ok.inj h).symm
    subst hst
    exact ⟨rfl, by simp, by simp, rfl, fun hs => hs⟩
  | cons u us ih =>
    intro st st' h
    simp only [runClfUpdates] at h
    cases hu : MvpResultsClassification.update st u with
    | error e => simp [hu] at h
    | ok st1 =>
      simp only [hu] at h
      obtain ⟨_gy, gn, git, glt, gnc, cm, hcm, gconf⟩ := clf_update_ok hu
      obtain ⟨hn, hit, hle, hnc, hsized⟩ := ih st1 st' h
      refine ⟨hn.trans gn, ?_, ?_, hnc.trans gnc, ?_⟩
      · rw [hit, git]
        simp only [List.length_cons]
        omega
      · intro _
        by_cases hus : us = []
        · subst hus
          have hst : st' = st1 := by
            simp only [runClfUpdates] at h
            exact (Except.ok.inj h).symm
          subst hst
          rw [git]
          omega
        · have hle' := hle hus
          rw [← gn]
          exact hle'
      · intro hs m hm
        have hs1 : ∀ m1 ∈ st1.confmat, sizedMat (st1.core.n_class.getD 0) m1 := by
          intro m1 hm1
          rw [gconf] at hm1
          rw [gnc]
          rcases mem_of_mem_set st.confmat st.core.iter cm m1 hm1 with hmem | hcmm
          · exact hs m1 hmem
          · rw [hcmm]
            exact assignConfmat_ok_sized hcm
        have hall := hsized hs1 m hm
        rw [gnc] at hall
        exact hall

theorem mem_zipWith {α β γ : Type} (f : α → β → γ) :
    ∀ (l1 : List α) (l2 : List β) (x : γ), x ∈ List.zipWith f l1 l2 →
      ∃ a b, a ∈ l1 ∧ b ∈ l2 ∧ x = f a b := by
  intro l1
  induction l1 with
  | nil => intro l2 x hx; simp at hx
  | cons a as ih =>
    intro l2 x hx
    cases l2 with
    | nil => simp at hx
    | cons b bs =>
      rcases List.mem_cons.1 hx with h1 | h1
      · exact ⟨a, b, List.mem_cons_self _ _, List.mem_cons_self _ _, h1⟩
      · rcases ih bs x h1 with ⟨a1, b1, ha, hb, hx1⟩
        exact ⟨a1, b1, List.mem_cons_of_mem _ ha, List.mem_cons_of_mem _ hb, hx1⟩

theorem matAdd_sized {c : ℕ} {A B : List (List ℕ)}
    (hA : sizedMat c A) (hB : sizedMat c B) : sizedMat c (matAdd A B) := by
  constructor
  · simp [matAdd, hA.1, hB.1]
  · intro r hr
    rcases mem_zipWith _ A B r hr with ⟨a, b, ha, hb, rfl⟩
    simp [hA.2 a ha, hB.2 b hb]

theorem matAdd_entry {c : ℕ} {A B : List (List ℕ)}
    (hA : sizedMat c A) (hB : sizedMat c B) {a b : ℕ} (ha : a < c) (hb : b < c) :
    cmEntry (matAdd A B) a b = cmEntry A a b + cmEntry B a b := by
  unfold cmEntry matAdd
  rw [getD_zipWith (List.zipWith (fun a b => a + b)) [] A B a
    (by rw [hA.1]; exact ha) (by rw [hB.1]; exact ha)]
  have hra : (A.getD a []).length = c := hA.2 _ (getD_mem [] A a (by rw [hA.1]; exact ha))
  have hrb : (B.getD a []).length = c := hB.2 _ (getD_mem [] B a (by rw [hB.1]; exact ha))
  rw [getD_zipWith (fun a b => a + b) 0 _ _ b
    (by rw [hra]; exact hb) (by rw [hrb]; exact hb)]

theorem getD_replicate {α : Type} (d x : α) :
    ∀ (n i : ℕ), (List.replicate n x).getD i d = if i < n then x else d := by
  intro n
  induction n with
  | zero => intro i; simp
  | succ m ih =>
    intro i
    cases i with
    | zero => simp
    | succ k =>
      show (List.replicate m x).getD k d = _
      rw [ih k]
      simp [Nat.succ_lt_succ_iff]

theorem sized_zeroMat (c : ℕ) : sizedMat c (List.replicate c (List.replicate c (0 : ℕ))) := by
  constructor
  · simp
  · intro r hr
    rw [List.eq_of_mem_replicate hr]
    simp

theorem cmEntry_zeroMat (c a b : ℕ) :
    cmEntry (List.replicate c (List.replicate c (0 : ℕ))) a b = 0 := by
  unfold cmEntry
  rw [getD_replicate]
  split
  · rw [getD_replicate]
    split <;> rfl
  · rfl

theorem foldl_matAdd_entry :
    ∀ (ms : List (List (List ℕ))) (acc : List (List ℕ)) (c a b : ℕ),
      sizedMat c acc → (∀ m ∈ ms, sizedMat c m) → a < c → b < c →
      cmEntry (ms.foldl matAdd acc) a b
        = cmEntry acc a b + (ms.map (fun m => cmEntry m a b)).sum := by
  intro ms
  induction ms with
  | nil => intro acc c a b _ _ _ _; simp
  | cons m ms ih =>
    intro acc c a b hacc hms ha hb
    have hm : sizedMat c m := hms m (List.mem_cons_self _ _)
    have hrest : ∀ m' ∈ ms, sizedMat c m' :=
      fun m' hm' => hms m' (List.mem_cons_of_mem _ hm')
    rw [List.foldl_cons, ih (matAdd acc m) c a b (matAdd_sized hacc hm) hrest ha hb,
      matAdd_entry hacc hm ha hb]
    simp [Nat.add_assoc]

/-- C6: on a classification aggregator built from the full label vector `y`,
any successful sequence of updates keeps every stored per-fold confusion
matrix of size `n_class × n_class` — `n_class` being the number of distinct
labels of `y`, counted at construction — and the aggregate confusion matrix
reported at finalization equals the element-wise sum of the stored per-fold
matrices. -/
theorem clf_confmat_sizes_and_aggregate (n_iter : ℕ) (X : List (List ℚ)) (y : List ℚ)
    (fs : String) (us : List UpdateInput) (st' : ClfState)
    (h : runClfUpdates (MvpResultsClassification.init n_iter X y fs) us = .ok st') :
    (∀ m ∈ st'.confmat, sizedMat (npUnique y).length m)
    ∧ (∀ a b, a < (npUnique y).length → b < (npUnique y).length →
        cmEntry (aggregateConfmat st') a b
          = (st'.confmat.map (fun m => cmEntry m a b)).sum) := by
  obtain ⟨_hn, _hit, _hle, hnc, hsized⟩ :=
    runClfUpdates_spec us (MvpResultsClassification.init n_iter X y fs) st' h
  have hinit : ∀ m ∈ (MvpResultsClassification.init n_iter X y fs).confmat,
      sizedMat ((MvpResultsClassification.init n_iter X y fs).core.n_class.getD 0) m := by
    intro m hm
    rw [List.eq_of_mem_replicate hm]
    exact sized_zeroMat _
  have hall := hsized hinit
  have hslot : ((MvpResultsClassification.init n_iter X y fs).core.n_class.getD 0)
      = (npUnique y).length := rfl
  rw [hslot] at hall
  have hcls : st'.core.n_class.getD 0 = (npUnique y).length := by
    rw [hnc]
    exact hslot
  refine ⟨hall, ?_⟩
  intro a b ha hb
  unfold aggregateConfmat
  rw [hcls,
    foldl_matAdd_entry st'.confmat _ (npUnique y).length a b (sized_zeroMat _) hall ha hb,
    cmEntry_zeroMat]
  simp

/-- Witness for C6: the 2-fold, 2-class demo aggregator. -/
theorem clf_confmat_sizes_and_aggregate_witness :
    (∀ m ∈ clfDemoFinal.confmat, sizedMat (npUnique [0, 1, 0, 1]).length m)
    ∧ cmEntry (aggregateConfmat clfDemoFinal) 0 0
        = (clfDemoFinal.confmat.map (fun m => cmEntry m 0 0)).sum := by
  have h := clf_confmat_sizes_and_aggregate 2 [[1, 2], [3, 4], [5, 6], [7, 8]]
    [0, 1, 0, 1] "" clfDemoUs clfDemoFinal rfl
  exact ⟨h.1, h.2 0 0 (by decide) (by decide)⟩

/-! ### C8: the fold counter -/

/-- C8: each successful `update` on either aggregator advances the internal
fold counter by exactly one, and on a freshly constructed aggregator with
declared fold count `n` any successful sequence of updates completes exactly
one slot per call and never more than `n` updates in total. -/
theorem update_fold_counter_invariant :
    (∀ (st st' : RegState) (u : UpdateInput),
        MvpResultsRegression.update st u = .ok st' →
        st'.core.iter = st.core.iter + 1)
    ∧ (∀ (st st' : ClfState) (u : UpdateInput),
        MvpResultsClassification.update st u = .ok st' →
        st'.core.iter = st.core.iter + 1)
    ∧ (∀ (n_iter : ℕ) (X : List (List ℚ)) (y : List ℚ) (fs : String)
        (us : List UpdateInput) (st' : RegState),
        runRegUpdates (MvpResultsRegression.init n_iter X y fs) us = .ok st' →
        st'.core.iter = us.length ∧ us.length ≤ n_iter)
    ∧ (∀ (n_iter : ℕ) (X : List (List ℚ)) (y : List ℚ) (fs : String)
        (us : List UpdateInput) (st' : ClfState),
        runClfUpdates (MvpResultsClassification.init n_iter X y fs) us = .ok st' →
        st'.core.iter = us.length ∧ us.length ≤ n_iter) := by
  refine ⟨?_, ?_, ?_, ?_⟩
  · intro st st' u h
    exact (reg_update_ok h).2.2.1
  · intro st st' u h
    exact (clf_update_ok h).2.2.1
  · intro n_iter X y fs us st' h
    obtain ⟨_, _hn, hit, _, hlast, _, _⟩ :=
      runRegUpdates_spec us (MvpResultsRegression.init n_iter X y fs) st' h
    have hiter0 : st'.core.iter = us.length := by
      simpa [MvpResultsRegression.init] using hit
    refine ⟨hiter0, ?_⟩
    by_cases hus : us = []
    · subst hus
      simp
    · have hle := (hlast hus).1
      rw [hiter0] at hle
      exact hle
  · intro n_iter X y fs us st' h
    obtain ⟨_hn, hit, hle, _, _⟩ :=
      runClfUpdates_spec us (MvpResultsClassification.init n_iter X y fs) st' h
    have hiter0 : st'.core.iter = us.length := by
      simpa [MvpResultsClassification.init] using hit
    refine ⟨hiter0, ?_⟩
    by_cases hus : us = []
    · subst hus
      simp
    · have hle' := hle hus
      rw [hiter0] at hle'
      exact hle'

/-- Witness for C8: the two demo aggregators after their two folds each. -/
theorem update_fold_counter_invariant_witness :
    (regDemoFinal.core.iter = regDemoUs.length ∧ regDemoUs.length ≤ 2)
    ∧ (clfDemoFinal.core.iter = clfDemoUs.length ∧ clfDemoUs.length ≤ 2) :=
  ⟨update_fold_counter_invariant.2.2.1 2 [[1, 2], [3, 4]] [1, 3] "" regDemoUs
      regDemoFinal rfl,
   update_fold_counter_invariant.2.2.2 2 [[1, 2], [3, 4], [5, 6], [7, 8]] [0, 1, 0, 1] ""
      clfDemoUs clfDemoFinal rfl⟩

end Skbold
